import Mathlib

/-!
Verification development for atopile's `src/atopile/cli/install.py`.

The Python source is shallowly embedded below: pure string manipulation
(`split_module_spec`, the JLCPCB component-id validation) becomes pure Lean
functions over `List Char`; the stateful repository operations of
`install_dependency` become explicit state passing over a `RepoState` record;
Python exceptions become `Except` values.  The external `atopile.version`
module (operators, tag parsing, constraint matching) is not part of the
sources and is modelled from the specification, as marked on each such
definition.
-/

/-! ## Python string primitives, embedded over `List Char` -/

/-- Python `haystack.find(needle)` restricted to found/not-found:
index of the first (leftmost) occurrence of `needle` in the haystack,
or `none` when `needle` does not occur (Python returns `-1` there). -/
def pyFind (needle : List Char) : List Char → Option Nat
  | [] => if needle.isPrefixOf ([] : List Char) then some 0 else none
  | c :: t => if needle.isPrefixOf (c :: t) then some 0 else (pyFind needle t).map (· + 1)

/-- Python `needle in haystack` for strings (substring containment). -/
def pyContains (needle hay : String) : Bool :=
  (pyFind needle.data hay.data).isSome

/-- Python `s[:n]` on a string (first `n` characters). -/
def strTake (s : String) (n : Nat) : String :=
  ⟨s.data.take n⟩

/-- Python `s[n:]` on a string (drop the first `n` characters). -/
def strDrop (s : String) (n : Nat) : String :=
  ⟨s.data.drop n⟩

/-- Python `s.strip()`: remove whitespace from both ends.  (Python strips the
Unicode whitespace class; the inputs of this development are ASCII, where the
two notions agree.) -/
def pyStrip (s : String) : String :=
  ⟨((s.data.dropWhile Char.isWhitespace).reverse.dropWhile Char.isWhitespace).reverse⟩

/-- Python `s.strip("@")`: remove `'@'` characters from both ends. -/
def stripAts (s : String) : String :=
  ⟨((s.data.dropWhile (· == '@')).reverse.dropWhile (· == '@')).reverse⟩

/-- Python `s.upper()` (ASCII case mapping). -/
def pyUpper (s : String) : String :=
  ⟨s.data.map Char.toUpper⟩

/-- Python `s.startswith(p)`. -/
def pyStartsWith (p s : String) : Bool :=
  p.data.isPrefixOf s.data

/-- Non-ASCII characters accepted by Python `str.isdigit`, which takes every
character of Unicode numeric type Decimal or Digit, not just ASCII 0-9.
Modelled blocks: the superscript digits U+00B2/U+00B3/U+00B9 and
U+2070/U+2074-U+2079, the subscript digits U+2080-U+2089, the Arabic-Indic
digits U+0660-U+0669, the extended Arabic-Indic digits U+06F0-U+06F9, the
Devanagari digits U+0966-U+096F and the Bengali digits U+09E6-U+09EF.
CPython additionally accepts the remaining Unicode digit blocks, which behave
like the ones modelled here and are not enumerated; all of them lie outside
ASCII, so the omission does not affect ASCII inputs. -/
def pyCharIsUniDigit (c : Char) : Bool :=
  c.toNat == 0xB2 || c.toNat == 0xB3 || c.toNat == 0xB9 ||
  (decide (0x660 ≤ c.toNat) && decide (c.toNat ≤ 0x669)) ||
  (decide (0x6F0 ≤ c.toNat) && decide (c.toNat ≤ 0x6F9)) ||
  (decide (0x966 ≤ c.toNat) && decide (c.toNat ≤ 0x96F)) ||
  (decide (0x9E6 ≤ c.toNat) && decide (c.toNat ≤ 0x9EF)) ||
  c.toNat == 0x2070 ||
  (decide (0x2074 ≤ c.toNat) && decide (c.toNat ≤ 0x2079)) ||
  (decide (0x2080 ≤ c.toNat) && decide (c.toNat ≤ 0x2089))

/-- A character Python `str.isdigit` accepts: an ASCII digit or one of the
non-ASCII Unicode digit characters. -/
def pyCharIsDigit (c : Char) : Bool :=
  c.isDigit || pyCharIsUniDigit c

/-- Python `s.isdigit()`: non-empty and every character a digit in the
Unicode sense (ASCII digits and the non-ASCII digit characters alike). -/
def pyIsdigitStr (s : String) : Bool :=
  !s.data.isEmpty && s.data.all pyCharIsDigit

/-! ## The modelled `atopile.version` module (not under the given sources) -/

/-- Modelled from the spec: `version.OPERATORS`, the ordered tuple of
recognized version-constraint operator tokens of the external `version`
module.  The spec's constraint grammar shows comparison operators and caret
ranges (e.g. `^1.2.0`, `>=1.0`); multi-character operators are listed before
their single-character prefixes. -/
def OPERATORS : List String :=
  ["==", ">=", "<=", ">", "<", "^", "~"]

/-- Modelled from the spec: a parsed semantic version, totally ordered. -/
structure Version where
  major : Nat
  minor : Nat
  patch : Nat
deriving DecidableEq

/-- Strict lexicographic order on versions (major, then minor, then patch). -/
def vlt (a b : Version) : Bool :=
  a.major < b.major ||
    (a.major == b.major &&
      (a.minor < b.minor || (a.minor == b.minor && a.patch < b.patch)))

/-- Non-strict version order, `a ≤ b` as the negation of `b < a`. -/
def vle (a b : Version) : Bool :=
  !(vlt b a)

/-- Digits of a numeral to its value. -/
def digitsToNat (l : List Char) : Nat :=
  l.foldl (fun acc c => acc * 10 + (c.toNat - '0'.toNat)) 0

/-- Parse a non-empty all-digit character run as a number. -/
def parseNatChars (l : List Char) : Option Nat :=
  if !l.isEmpty && l.all Char.isDigit then some (digitsToNat l) else none

/-- Split a character list on `'.'` separators. -/
def splitOnDot : List Char → List (List Char)
  | [] => [[]]
  | c :: t =>
    if c == '.' then [] :: splitOnDot t
    else
      match splitOnDot t with
      | [] => [[c]]
      | h :: r => (c :: h) :: r

/-- Modelled from the spec: `version.parse` of the external `version` module.
A conforming tag is `major.minor.patch` with numeric components; anything
else fails (callers treat the failure as skip-and-continue). -/
def parseVersion (s : String) : Option Version :=
  match splitOnDot s.data with
  | [a, b, c] =>
    match parseNatChars a, parseNatChars b, parseNatChars c with
    | some x, some y, some z => some ⟨x, y, z⟩
    | _, _, _ => none
  | _ => none

/-- Modelled from the spec: `version.match` of the external `version` module,
evaluating a constraint expression against a version.  The wildcard matches
anything; a caret range `^X.Y.Z` matches versions of the same major that are
at least `X.Y.Z`; plain comparisons compare against the stated version. -/
def versionMatch (c : String) (v : Version) : Bool :=
  let c := pyStrip c
  if c = "*" then true
  else if pyStartsWith "^" c then
    match parseVersion (strDrop c 1) with
    | some b => v.major == b.major && vle b v
    | none => false
  else if pyStartsWith ">=" c then
    match parseVersion (strDrop c 2) with
    | some b => vle b v
    | none => false
  else if pyStartsWith "==" c then
    match parseVersion (strDrop c 2) with
    | some b => v == b
    | none => false
  else false

/-! ## SpecSplitter: `split_module_spec` (install.py lines 60-72) -/

/-- Loop of `split_module_spec`: try each candidate splitter in order and
return the position of the first occurrence of the first candidate that
occurs anywhere in the string. -/
def findSplitter : List String → String → Option Nat
  | [], _ => none
  | s :: rest, spec =>
    match pyFind s.data spec.data with
    | some i => some i
    | none => findSplitter rest spec

/-- Candidate splitters in iteration order: `chain(version.OPERATORS, (" ", "@"))`. -/
def splitterCandidates : List String :=
  OPERATORS ++ [" ", "@"]

/-- `split_module_spec` (install.py lines 60-72): split a raw module spec into
the module name and the optional version spec. -/
def split_module_spec (spec : String) : String × Option String :=
  match findSplitter splitterCandidates spec with
  | some loc => (pyStrip (strTake spec loc), some (pyStrip (strDrop spec loc)))
  | none => (spec, none)

/-! ## ManifestEditor: `set_dependency_to_ato_yaml` (install.py lines 75-101) -/

/-- Name component of a stored dependency spec string. -/
def depName (x : String) : String :=
  (split_module_spec x).1

/-- `set_dependency_to_ato_yaml` (install.py lines 75-101), on the dependency
list read from `ato.yaml`.  The Python `dependencies_by_name` dict maps each
name to the last list entry bearing it; `list.remove` deletes the first
occurrence.  Returns the resulting dependency list together with whether the
manifest file was rewritten (the write happens only in the append branch). -/
def set_dependency_to_ato_yaml (deps : List String) (module_spec : String) :
    List String × Bool :=
  let module_to_install := depName module_spec
  let deps1 :=
    match (deps.filter fun x => depName x == module_to_install).getLast? with
    | some existing_spec =>
      if existing_spec ≠ module_spec then deps.erase existing_spec else deps
    | none => deps
  if module_spec ∈ deps1 then (deps1, false)
  else (deps1 ++ [module_spec], true)

/-! ## RepositoryResolver: `install_dependency` (install.py lines 104-186) -/

/-- A git tag of the working copy: a name and the commit it points at. -/
structure Tag where
  name : String
  commit : Nat
deriving DecidableEq

/-- State of a local working copy (the repo under `modules_path / module_name`). -/
structure RepoState where
  tags : List Tag
  branches : List (String × Nat)
  head : Nat
  dirty : Bool
deriving DecidableEq

/-- State of the remote package repository at the derived clone URL. -/
structure RemoteState where
  tags : List Tag
  branches : List (String × Nat)
  defaultTip : Nat
deriving DecidableEq

/-- `Repo.clone_from`: a fresh clone has the remote's tags and branches, a
clean worktree, and its head on the default branch tip. -/
def cloneFrom (r : RemoteState) : RepoState :=
  { tags := r.tags, branches := r.branches, head := r.defaultTip, dirty := false }

/-- `repo.remotes.origin.fetch()`: refresh tags and branches from the remote;
the head commit and the worktree (dirtiness) are untouched. -/
def fetchFrom (repo : RepoState) (r : RemoteState) : RepoState :=
  { repo with tags := r.tags, branches := r.branches }

/-- Errors raised by the embedded Python code. -/
inductive InstallError where
  /-- `errors.AtoError` raised with the given message. -/
  | atoError (msg : String)
  /-- Python `ValueError` from `max()` over an empty sequence (line 157). -/
  | valueError
  /-- Python `KeyError` from a missing dict key (line 158). -/
  | keyError
  /-- Python `UnboundLocalError`: `best_checkout` referenced before assignment. -/
  | unboundLocal
  /-- git checkout failure: the requested ref does not exist. -/
  | gitError
deriving DecidableEq

/-- The dynamically-typed value `best_checkout` holds: a literal ref string
(from the `@` branch, line 153) or a tag object (semver branch, line 158). -/
inductive Checkout where
  | ref (r : String)
  | tag (t : Tag)
deriving DecidableEq

/-- What `repo.git.checkout` receives: a tag object stringifies to its name. -/
def checkoutName : Checkout → String
  | .ref r => r
  | .tag t => t.name

/-- A dynamically-typed Python value returned by `install_dependency`. -/
inductive PyVal where
  | pyNone
  | pyVersion (v : Version)
  | pyTag (t : Tag)
  | pyStr (s : String)
deriving DecidableEq

/-- The returned `best_checkout` as a Python value. -/
def checkoutPyVal : Checkout → PyVal
  | .ref r => .pyStr r
  | .tag t => .pyTag t

/-- Lines 143-149: the `semver_to_tag` dict, as the insertion-ordered list of
(parsed version, tag) pairs; unparseable tags are skipped. -/
def semverPairs (tags : List Tag) : List (Version × Tag) :=
  tags.filterMap fun t => (parseVersion t.name).map fun v => (v, t)

/-- Line 156: `valid_versions`, the parsed versions matching the spec. -/
def matchingVersions (module_spec : String) (tags : List Tag) : List Version :=
  ((semverPairs tags).map Prod.fst).filter fun v => versionMatch module_spec v

/-- Python dict lookup on `semver_to_tag`: the value stored for a version is
the last tag inserted under it. -/
def dictGetLast (l : List (Version × Tag)) (v : Version) : Option Tag :=
  (l.reverse.find? fun p => p.1 == v).map Prod.snd

/-- Loop of Python `max`: strictly greater elements replace the accumulator,
so the first maximal element wins. -/
def foldMax (a : Version) (l : List Version) : Version :=
  l.foldl (fun x y => if vlt x y then y else x) a

/-- Python `max` over versions; empty input is a `ValueError` at the caller. -/
def pyMax : List Version → Option Version
  | [] => none
  | x :: xs => some (foldMax x xs)

/-- Resolve a checkout target name against the working copy (branches first,
then tags). -/
def resolveRef (repo : RepoState) (name : String) : Option Nat :=
  match repo.branches.find? fun p => p.1 == name with
  | some p => some p.2
  | none => (repo.tags.find? fun t => t.name == name).map Tag.commit

/-- `repo.git.checkout`: move the head to the commit the target resolves to. -/
def gitCheckout (repo : RepoState) (target : String) : Except InstallError RepoState :=
  match resolveRef repo target with
  | some c => .ok { repo with head := c }
  | none => .error .gitError

/-- Lines 151-163: compute `best_checkout` and `installed_semver`.
`best_checkout` stays unassigned (`none`) in the no-semver-tags fallback,
where the code only logs a warning. -/
def selectBest (module_spec : String) (tags : List Tag) :
    Except InstallError (Option Checkout × Option Version) :=
  if pyContains "@" module_spec then
    .ok (some (.ref (stripAts (pyStrip module_spec))), none)
  else if !(semverPairs tags).isEmpty then
    match pyMax (matchingVersions module_spec tags) with
    | none => .error .valueError
    | some m =>
      match dictGetLast (semverPairs tags) m with
      | some t => .ok (some (.tag t), some m)
      | none => .error .keyError
  else
    .ok (none, none)

/-- Lines 142-186: tag enumeration, selection, the dirty-worktree guard, the
checkout, and the return value.  Returns the final working-copy state and the
outcome; note line 186 returns `best_checkout` itself, guarded by
`if installed_semver`. -/
def resolveAndCheckout (module_name module_spec : String) (repo : RepoState) :
    RepoState × Except InstallError PyVal :=
  match selectBest module_spec repo.tags with
  | .error e => (repo, .error e)
  | .ok (best_checkout, installed_semver) =>
    if repo.dirty then
      (repo, .error (.atoError
        ("Module " ++ module_name ++ " has uncommitted changes. Aborting.")))
    else
      match best_checkout with
      | none => (repo, .error .unboundLocal)
      | some bc =>
        match gitCheckout repo (checkoutName bc) with
        | .error e => (repo, .error e)
        | .ok repo2 =>
          if installed_semver.isSome then (repo2, .ok (checkoutPyVal bc))
          else (repo2, .ok .pyNone)

/-- Lines 112-114: the effective module spec, `"*"` when absent or falsy. -/
def effectiveModuleSpec (module : String) : String :=
  match (split_module_spec module).2 with
  | none => "*"
  | some s => if s = "" then "*" else s

/-- `install_dependency` (install.py lines 104-186).  `localRepo` is the probe
result for `modules_path / module_name` (`none`: missing or invalid, so the
code clones); `remote` is the package repository at the derived URL.  Returns
the final working-copy state and either an error or the returned value. -/
def install_dependency (module : String) (upgrade : Bool)
    (localRepo : Option RepoState) (remote : RemoteState) :
    RepoState × Except InstallError PyVal :=
  let module_name := (split_module_spec module).1
  let module_spec := effectiveModuleSpec module
  match localRepo with
  | none => resolveAndCheckout module_name module_spec (cloneFrom remote)
  | some r =>
    if upgrade then resolveAndCheckout module_name module_spec (fetchFrom r remote)
    else (r, .ok .pyNone)

/-! ## FootprintInstaller: `install_jlcpcb` (install.py lines 196-236) -/

/-- Externally visible steps of `install_jlcpcb`, in execution order. -/
inductive JlcStep where
  /-- `Repo(".", search_parent_directories=True)` (line 203). -/
  | repoProbe
  /-- Reading the remote URL (line 207). -/
  | readRemote
  /-- Running the `easyeda2kicad` subprocess for the given component id and
  footprints directory (lines 217-226). -/
  | runConverter (componentId : String) (footprintsDir : String)
deriving DecidableEq

/-- `install_jlcpcb` (install.py lines 196-236): uppercase the component id,
validate it, derive the footprints directory from the remote URL, run the
converter, and fail on a non-zero exit code.  Returns the performed steps and
the outcome. -/
def install_jlcpcb (component_id : String) (remote_url : String)
    (returncode : Nat) : List JlcStep × Except InstallError Unit :=
  let cid := pyUpper component_id
  if !(pyStartsWith "C" cid) || !(pyIsdigitStr (strDrop cid 1)) then
    ([], .error (.atoError ("Component id " ++ cid ++ " is invalid. Aborting.")))
  else
    let footprints_dir :=
      if remote_url = "git@gitlab.atopile.io:atopile/modules.git" then "footprints"
      else "elec/footprints/footprints"
    ([.repoProbe, .readRemote, .runConverter cid footprints_dir],
      if returncode = 0 then .ok ()
      else .error (.atoError "Couldn't install component"))

/-- The spec's validation pattern for component ids, written from the regex
`^C[0-9]+$`: a literal `C` followed by one or more ASCII digits. -/
def matchesComponentPattern (s : String) : Bool :=
  match s.data with
  | [] => false
  | c :: rest => c == 'C' && (!rest.isEmpty && rest.all Char.isDigit)

/-- The manifest invariant: at most one dependency entry per package name
(no two entries share a name). -/
def NoDupNames (deps : List String) : Prop :=
  deps.Pairwise fun a b => depName a ≠ depName b

deriving instance DecidableEq for Except

/-! ## Order lemmas for the modelled version order -/

theorem vlt_iff (a b : Version) : vlt a b = true ↔
    (a.major < b.major ∨ (a.major = b.major ∧
      (a.minor < b.minor ∨ (a.minor = b.minor ∧ a.patch < b.patch)))) := by
  simp [vlt]

theorem vlt_irrefl (a : Version) : vlt a a = false := by
  simp [vlt]

theorem bool_eq_false {b : Bool} (h : ¬b = true) : b = false := by
  cases b
  · rfl
  · exact absurd rfl h

theorem vlt_asymm {a b : Version} (h : vlt a b = true) : vlt b a = false := by
  rw [vlt_iff] at h
  refine bool_eq_false fun ht => ?_
  rw [vlt_iff] at ht; omega

theorem vle_iff (a b : Version) : vle a b = true ↔ vlt b a = false := by
  simp [vle]

theorem vle_refl (a : Version) : vle a a = true := by
  rw [vle_iff]; exact vlt_irrefl a

theorem vle_of_vlt {a b : Version} (h : vlt a b = true) : vle a b = true := by
  rw [vle_iff]; exact vlt_asymm h

theorem vle_trans {a b c : Version} (hab : vle a b = true) (hbc : vle b c = true) :
    vle a c = true := by
  rw [vle_iff] at hab hbc ⊢
  refine bool_eq_false fun ht => ?_
  rw [vlt_iff] at ht
  have hba : ¬vlt b a = true := by rw [hab]; exact Bool.false_ne_true
  have hcb : ¬vlt c b = true := by rw [hbc]; exact Bool.false_ne_true
  rw [vlt_iff] at hba hcb
  omega

/-! ## Properties of the embedded Python `max` -/

theorem foldMax_spec : ∀ (l : List Version) (a : Version),
    (foldMax a l = a ∨ foldMax a l ∈ l) ∧ vle a (foldMax a l) = true ∧
      ∀ x ∈ l, vle x (foldMax a l) = true := by
  intro l
  induction l with
  | nil => exact fun a => ⟨Or.inl rfl, vle_refl a, by simp⟩
  | cons y t ih =>
    intro a
    by_cases h : vlt a y = true
    · have hstep : foldMax a (y :: t) = foldMax y t := by
        simp [foldMax, List.foldl_cons, h]
      obtain ⟨hmem, hacc, hall⟩ := ih y
      refine ⟨?_, ?_, ?_⟩
      · rw [hstep]
        rcases hmem with he | hm
        · exact Or.inr (by rw [he]; exact List.mem_cons_self y t)
        · exact Or.inr (List.mem_cons_of_mem y hm)
      · rw [hstep]; exact vle_trans (vle_of_vlt h) hacc
      · intro x hx
        rw [hstep]
        rcases List.mem_cons.mp hx with rfl | hm
        · exact hacc
        · exact hall x hm
    · have h' : vlt a y = false := bool_eq_false h
      have hstep : foldMax a (y :: t) = foldMax a t := by
        simp [foldMax, List.foldl_cons, h']
      obtain ⟨hmem, hacc, hall⟩ := ih a
      refine ⟨?_, ?_, ?_⟩
      · rw [hstep]
        rcases hmem with he | hm
        · exact Or.inl he
        · exact Or.inr (List.mem_cons_of_mem y hm)
      · rw [hstep]; exact hacc
      · intro x hx
        rw [hstep]
        rcases List.mem_cons.mp hx with rfl | hm
        · have hya : vle x a = true := by rw [vle_iff]; exact h'
          exact vle_trans hya hacc
        · exact hall x hm

theorem pyMax_spec {l : List Version} {m : Version} (h : pyMax l = some m) :
    m ∈ l ∧ ∀ x ∈ l, vle x m = true := by
  cases l with
  | nil => simp [pyMax] at h
  | cons x xs =>
    have hm : m = foldMax x xs := by
      simpa [pyMax] using h.symm
    obtain ⟨hmem, hacc, hall⟩ := foldMax_spec xs x
    subst hm
    constructor
    · rcases hmem with he | hmm
      · rw [he]; exact List.mem_cons_self x xs
      · exact List.mem_cons_of_mem x hmm
    · intro y hy
      rcases List.mem_cons.mp hy with rfl | hmm
      · exact hacc
      · exact hall y hmm

theorem pyMax_isSome {l : List Version} (h : l ≠ []) : ∃ m, pyMax l = some m := by
  cases l with
  | nil => exact absurd rfl h
  | cons x xs => exact ⟨foldMax x xs, rfl⟩

/-! ## Characterization of the embedded Python string search -/

theorem pyFind_some : ∀ (h : List Char) (i : Nat), pyFind n h = some i →
    n.isPrefixOf (h.drop i) = true ∧ ∀ j, j < i → n.isPrefixOf (h.drop j) = false := by
  intro h
  induction h with
  | nil =>
    intro i hi
    by_cases hp : n.isPrefixOf ([] : List Char) = true
    · simp [pyFind, hp] at hi
      subst hi
      exact ⟨hp, fun j hj => absurd hj (Nat.not_lt_zero j)⟩
    · simp [pyFind, bool_eq_false hp] at hi
  | cons c t ih =>
    intro i hi
    by_cases hp : n.isPrefixOf (c :: t) = true
    · simp [pyFind, hp] at hi
      subst hi
      exact ⟨hp, fun j hj => absurd hj (Nat.not_lt_zero j)⟩
    · have hp' := bool_eq_false hp
      simp [pyFind, hp'] at hi
      obtain ⟨i', hfind, hi'⟩ := hi
      obtain ⟨hpref, hmin⟩ := ih i' hfind
      subst hi'
      refine ⟨by simpa using hpref, ?_⟩
      intro j hj
      cases j with
      | zero => simpa using hp'
      | succ j' =>
        have : j' < i' := Nat.lt_of_succ_lt_succ hj
        simpa using hmin j' this

theorem pyFind_none : ∀ h : List Char, pyFind n h = none →
    ∀ j, n.isPrefixOf (h.drop j) = false := by
  intro h
  induction h with
  | nil =>
    intro hn j
    by_cases hp : n.isPrefixOf ([] : List Char) = true
    · simp [pyFind, hp] at hn
    · simpa using bool_eq_false hp
  | cons c t ih =>
    intro hn j
    by_cases hp : n.isPrefixOf (c :: t) = true
    · simp [pyFind, hp] at hn
    · have hp' := bool_eq_false hp
      simp [pyFind, hp'] at hn
      cases j with
      | zero => simpa using hp'
      | succ j' => simpa using ih hn j'

theorem findSplitter_all_none : ∀ cands : List String,
    (∀ x ∈ cands, pyFind x.data spec.data = none) →
    findSplitter cands spec = none := by
  intro cands
  induction cands with
  | nil => intro _; rfl
  | cons s rest ih =>
    intro hall
    have hs := hall s (List.mem_cons_self s rest)
    simp [findSplitter, hs]
    exact ih fun x hx => hall x (List.mem_cons_of_mem s hx)

theorem findSplitter_append_none : ∀ pre : List String,
    (∀ x ∈ pre, pyFind x.data spec.data = none) →
    findSplitter (pre ++ rest) spec = findSplitter rest spec := by
  intro pre
  induction pre with
  | nil => intro _; rfl
  | cons s pre' ih =>
    intro hall
    have hs := hall s (List.mem_cons_self s pre')
    simp [findSplitter, hs]
    exact ih fun x hx => hall x (List.mem_cons_of_mem s hx)

theorem findSplitter_cons_some (hs : pyFind s.data spec.data = some loc) :
    findSplitter (s :: rest) spec = some loc := by
  simp [findSplitter, hs]

theorem pyContains_false_iff {needle hay : String} :
    pyContains needle hay = false ↔ pyFind needle.data hay.data = none := by
  unfold pyContains
  cases pyFind needle.data hay.data <;> simp

/-- C3 (amended): `split` chooses as splitter the first token in the candidate
order (the version operators in their listed order, then a space, then `"@"`)
that occurs anywhere in the string, and splits at that splitter's leftmost
occurrence; the trimmed prefix is the name and the trimmed suffix the
constraint; if no candidate token occurs the result is (whole string, None).
In particular split("name@1.2.3") = ("name", "@1.2.3"),
split("name>=1.0") = ("name", ">=1.0") and split("name") = ("name", None). -/
theorem C3_split_first_candidate :
    (∀ spec : String, (∀ s ∈ splitterCandidates, pyContains s spec = false) →
      split_module_spec spec = (spec, none)) ∧
    (∀ spec : String, ∀ pre : List String, ∀ s' : String, ∀ post : List String,
      splitterCandidates = pre ++ s' :: post →
      (∀ x ∈ pre, pyContains x spec = false) →
      ∀ loc : Nat, pyFind s'.data spec.data = some loc →
        s'.data.isPrefixOf (spec.data.drop loc) = true ∧
        (∀ j, j < loc → s'.data.isPrefixOf (spec.data.drop j) = false) ∧
        split_module_spec spec =
          (pyStrip (strTake spec loc), some (pyStrip (strDrop spec loc)))) ∧
    split_module_spec "name@1.2.3" = ("name", some "@1.2.3") ∧
    split_module_spec "name>=1.0" = ("name", some ">=1.0") ∧
    split_module_spec "name" = ("name", none) := by
  refine ⟨?_, ?_, by decide, by decide, by decide⟩
  · intro spec hall
    have hnone : findSplitter splitterCandidates spec = none :=
      findSplitter_all_none splitterCandidates fun x hx =>
        pyContains_false_iff.mp (hall x hx)
    simp [split_module_spec, hnone]
  · intro spec pre s' post hcands hpre loc hfind
    obtain ⟨hpref, hmin⟩ := pyFind_some spec.data loc hfind
    refine ⟨hpref, hmin, ?_⟩
    have h1 : findSplitter splitterCandidates spec = some loc := by
      rw [hcands]
      rw [findSplitter_append_none pre fun x hx =>
        pyContains_false_iff.mp (hpre x hx)]
      exact findSplitter_cons_some hfind
    simp [split_module_spec, h1]

/-- C3 witness: the general part of the amended claim instantiated at
"name@1.2.3", whose first occurring candidate is "@" at position 4. -/
theorem C3_split_first_candidate_witness :
    "@".data.isPrefixOf ("name@1.2.3".data.drop 4) = true ∧
    (∀ j, j < 4 → "@".data.isPrefixOf ("name@1.2.3".data.drop j) = false) ∧
    split_module_spec "name@1.2.3" =
      (pyStrip (strTake "name@1.2.3" 4), some (pyStrip (strDrop "name@1.2.3" 4))) :=
  C3_split_first_candidate.2.1 "name@1.2.3" (OPERATORS ++ [" "]) "@" []
    (by decide) (by decide) 4 (by decide)

/-- C3 counterexample: in "name@x 1.2" the leftmost occurring candidate is
"@" (position 4, before the space at position 6, no operator occurring at
all), so the claimed leftmost-occurrence rule demands ("name", "@x 1.2"); the
code instead tries the space before "@" and yields ("name@x", "1.2"). -/
theorem C3_split_counterexample :
    pyFind "@".data "name@x 1.2".data = some 4 ∧
    pyFind " ".data "name@x 1.2".data = some 6 ∧
    (∀ s ∈ OPERATORS, pyContains s "name@x 1.2" = false) ∧
    split_module_spec "name@x 1.2" = ("name@x", some "1.2") ∧
    ("name@x", some "1.2") ≠ (("name", some "@x 1.2") : String × Option String) := by
  refine ⟨by decide, by decide, by decide, by decide, by decide⟩

/-! ## Lemmas about the manifest editor -/

theorem mem_and_name_of_getLast {deps : List String} {n e : String}
    (h : (deps.filter fun x => depName x == n).getLast? = some e) :
    e ∈ deps ∧ depName e = n := by
  have hmem := List.mem_of_getLast?_eq_some h
  have := List.mem_filter.mp hmem
  exact ⟨this.1, by simpa using this.2⟩

theorem noDupNames_nodup {deps : List String} (h : NoDupNames deps) : deps.Nodup :=
  h.imp fun hne heq => hne (congrArg depName heq)

theorem filter_name_small {deps : List String} (h : NoDupNames deps) (n : String) :
    (deps.filter fun x => depName x == n) = [] ∨
      ∃ e, (deps.filter fun x => depName x == n) = [e] := by
  induction deps with
  | nil => exact Or.inl rfl
  | cons d rest ih =>
    simp only [NoDupNames, List.pairwise_cons] at h
    rw [show NoDupNames rest = rest.Pairwise fun a b => depName a ≠ depName b
      from rfl] at ih
    by_cases hd : (depName d == n) = true
    · refine Or.inr ⟨d, ?_⟩
      have hrest : (rest.filter fun x => depName x == n) = [] := by
        rw [List.filter_eq_nil_iff]
        intro a ha hpa
        have h1 : depName a = n := by simpa using hpa
        have h2 : depName d = n := by simpa using hd
        exact h.1 a ha (h2.trans h1.symm)
      simp [List.filter_cons, hd, hrest]
    · have hd' := bool_eq_false hd
      rcases ih h.2 with hnil | ⟨e, he⟩
      · exact Or.inl (by simp [List.filter_cons, hd', hnil])
      · exact Or.inr ⟨e, by simp [List.filter_cons, hd', he]⟩

theorem filter_name_eq_singleton {deps : List String} {n e : String}
    (h : NoDupNames deps)
    (hgl : (deps.filter fun x => depName x == n).getLast? = some e) :
    (deps.filter fun x => depName x == n) = [e] := by
  rcases filter_name_small h n with hnil | ⟨e', he'⟩
  · rw [hnil] at hgl; simp at hgl
  · rw [he'] at hgl
    simp at hgl
    rw [he', hgl]

theorem setDep_of_filter_none {deps : List String} {s : String}
    (h : (deps.filter fun x => depName x == depName s).getLast? = none) :
    set_dependency_to_ato_yaml deps s =
      if s ∈ deps then (deps, false) else (deps ++ [s], true) := by
  simp only [set_dependency_to_ato_yaml, h]

theorem setDep_of_filter_last_self {deps : List String} {s : String}
    (h : (deps.filter fun x => depName x == depName s).getLast? = some s) :
    set_dependency_to_ato_yaml deps s = (deps, false) := by
  have hs : s ∈ deps := (mem_and_name_of_getLast h).1
  simp only [set_dependency_to_ato_yaml, h]
  simp [hs]

theorem setDep_of_filter_last_ne {deps : List String} {s e : String}
    (h : (deps.filter fun x => depName x == depName s).getLast? = some e)
    (hne : e ≠ s) :
    set_dependency_to_ato_yaml deps s =
      if s ∈ deps.erase e then (deps.erase e, false)
      else (deps.erase e ++ [s], true) := by
  simp only [set_dependency_to_ato_yaml, h]
  simp [hne]

theorem setDep_noDupNames (deps : List String) (s : String) (h : NoDupNames deps) :
    NoDupNames (set_dependency_to_ato_yaml deps s).1 := by
  rcases hgl : (deps.filter fun x => depName x == depName s).getLast? with _ | e
  · rw [setDep_of_filter_none hgl]
    by_cases hs : s ∈ deps
    · simpa [hs] using h
    · have hfil : (deps.filter fun x => depName x == depName s) = [] := by
        simpa using hgl
      simp only [hs, if_false]
      show NoDupNames (deps ++ [s])
      unfold NoDupNames
      rw [List.pairwise_append]
      refine ⟨h, List.pairwise_singleton _ s, ?_⟩
      intro a ha b hb heq
      have hb' : b = s := by simpa using hb
      rw [hb'] at heq
      have : a ∈ deps.filter fun x => depName x == depName s :=
        List.mem_filter.mpr ⟨ha, by simpa using heq⟩
      rw [hfil] at this
      simp at this
  · by_cases he : e = s
    · subst he
      rw [setDep_of_filter_last_self hgl]
      exact h
    · rw [setDep_of_filter_last_ne hgl he]
      have hfil := filter_name_eq_singleton h hgl
      have herase : NoDupNames (deps.erase e) :=
        List.Pairwise.sublist (List.erase_sublist e deps) h
      by_cases hs : s ∈ deps.erase e
      · simpa [hs] using herase
      · simp only [hs, if_false]
        show NoDupNames (deps.erase e ++ [s])
        unfold NoDupNames
        rw [List.pairwise_append]
        refine ⟨herase, List.pairwise_singleton _ s, ?_⟩
        intro a ha b hb heq
        have hb' : b = s := by simpa using hb
        rw [hb'] at heq
        have hadeps : a ∈ deps := (List.erase_sublist e deps).subset ha
        have : a ∈ deps.filter fun x => depName x == depName s :=
          List.mem_filter.mpr ⟨hadeps, by simpa using heq⟩
        rw [hfil] at this
        have ha' : a = e := by simpa using this
        subst ha'
        exact (noDupNames_nodup h).not_mem_erase ha

theorem setDep_filter_self (deps : List String) (s : String) (h : NoDupNames deps) :
    ((set_dependency_to_ato_yaml deps s).1.filter fun x => depName x == depName s)
      = [s] := by
  rcases hgl : (deps.filter fun x => depName x == depName s).getLast? with _ | e
  · have hfil : (deps.filter fun x => depName x == depName s) = [] := by
      simpa using hgl
    have hs : s ∉ deps := by
      intro hmem
      have : s ∈ deps.filter fun x => depName x == depName s :=
        List.mem_filter.mpr ⟨hmem, by simp⟩
      rw [hfil] at this
      simp at this
    rw [setDep_of_filter_none hgl]
    simp only [hs, if_false]
    rw [List.filter_append, hfil]
    simp
  · by_cases he : e = s
    · subst he
      rw [setDep_of_filter_last_self hgl]
      exact filter_name_eq_singleton h hgl
    · rw [setDep_of_filter_last_ne hgl he]
      have hfil := filter_name_eq_singleton h hgl
      have hsne : s ∉ deps.erase e := by
        intro hmem
        have hsdeps : s ∈ deps := (List.erase_sublist e deps).subset hmem
        have : s ∈ deps.filter fun x => depName x == depName s :=
          List.mem_filter.mpr ⟨hsdeps, by simp⟩
        rw [hfil] at this
        have : s = e := by simpa using this
        exact he this.symm
      simp only [hsne, if_false]
      rw [List.filter_append]
      have herasefil : ((deps.erase e).filter fun x => depName x == depName s) = [] := by
        rw [List.filter_eq_nil_iff]
        intro a ha hpa
        have hadeps : a ∈ deps := (List.erase_sublist e deps).subset ha
        have : a ∈ deps.filter fun x => depName x == depName s :=
          List.mem_filter.mpr ⟨hadeps, hpa⟩
        rw [hfil] at this
        have ha' : a = e := by simpa using this
        subst ha'
        exact (noDupNames_nodup h).not_mem_erase ha
      rw [herasefil]
      simp

/-- C7: adding a dependency preserves the at-most-one-entry-per-name
invariant of the manifest's dependency list, and on any manifest satisfying
the invariant, adding "pkg^1.0.0" then "pkg^2.0.0" leaves exactly one entry
named pkg, equal to "pkg^2.0.0". -/
theorem C7_unique_dependency_entry :
    (∀ deps s, NoDupNames deps → NoDupNames (set_dependency_to_ato_yaml deps s).1) ∧
    (∀ deps, NoDupNames deps →
      (((set_dependency_to_ato_yaml
          (set_dependency_to_ato_yaml deps "pkg^1.0.0").1 "pkg^2.0.0").1.filter
        fun x => depName x == "pkg") = ["pkg^2.0.0"])) := by
  refine ⟨setDep_noDupNames, ?_⟩
  intro deps h
  have h1 : NoDupNames (set_dependency_to_ato_yaml deps "pkg^1.0.0").1 :=
    setDep_noDupNames deps "pkg^1.0.0" h
  have h2 := setDep_filter_self (set_dependency_to_ato_yaml deps "pkg^1.0.0").1
    "pkg^2.0.0" h1
  have hname : depName "pkg^2.0.0" = "pkg" := by decide
  rw [hname] at h2
  exact h2

/-- C7 witness: the invariant preservation and the two-step example applied
to the singleton manifest ["other>=0.1.0"]. -/
theorem C7_unique_dependency_entry_witness :
    NoDupNames (set_dependency_to_ato_yaml ["other>=0.1.0"] "pkg^1.0.0").1 ∧
    (((set_dependency_to_ato_yaml
        (set_dependency_to_ato_yaml ["other>=0.1.0"] "pkg^1.0.0").1 "pkg^2.0.0").1.filter
      fun x => depName x == "pkg") = ["pkg^2.0.0"]) :=
  ⟨C7_unique_dependency_entry.1 ["other>=0.1.0"] "pkg^1.0.0"
      (List.pairwise_singleton _ _),
   C7_unique_dependency_entry.2 ["other>=0.1.0"] (List.pairwise_singleton _ _)⟩

/-- C8 (amended): re-adding a spec string already present verbatim in the
dependency list never writes the manifest file; a write implies the list
changed (on every manifest); and on manifests with at most one entry per
name a changed list is always written, so there the file is rewritten
exactly when the list changes.  (On a manifest holding duplicate entries for
one name, the code can remove a stale duplicate and yet skip the write.) -/
theorem C8_write_only_on_change :
    (∀ deps s, s ∈ deps → (set_dependency_to_ato_yaml deps s).2 = false) ∧
    (∀ deps s, (set_dependency_to_ato_yaml deps s).2 = true →
      (set_dependency_to_ato_yaml deps s).1 ≠ deps) ∧
    (∀ deps s, NoDupNames deps → (set_dependency_to_ato_yaml deps s).2 = false →
      (set_dependency_to_ato_yaml deps s).1 = deps) := by
  refine ⟨?_, ?_, ?_⟩
  · intro deps s hs
    rcases hgl : (deps.filter fun x => depName x == depName s).getLast? with _ | e
    · rw [setDep_of_filter_none hgl]
      simp [hs]
    · by_cases he : e = s
      · subst he
        rw [setDep_of_filter_last_self hgl]
      · rw [setDep_of_filter_last_ne hgl he]
        have hmem : s ∈ deps.erase e :=
          (List.mem_erase_of_ne fun hss => he hss.symm).mpr hs
        simp [hmem]
  · intro deps s hw heq
    rcases hgl : (deps.filter fun x => depName x == depName s).getLast? with _ | e
    · rw [setDep_of_filter_none hgl] at hw heq
      by_cases hs : s ∈ deps
      · simp [hs] at hw
      · simp only [hs, if_false] at heq
        have := congrArg List.length heq
        simp at this
    · by_cases he : e = s
      · subst he
        rw [setDep_of_filter_last_self hgl] at hw
        simp at hw
      · rw [setDep_of_filter_last_ne hgl he] at hw heq
        by_cases hs : s ∈ deps.erase e
        · simp [hs] at hw
        · simp only [hs, if_false] at heq
          have hcount := congrArg (List.count s) heq
          rw [List.count_append, List.count_erase_of_ne fun hss => he hss.symm,
            List.count_singleton_self] at hcount
          omega
  · intro deps s h hw
    rcases hgl : (deps.filter fun x => depName x == depName s).getLast? with _ | e
    · rw [setDep_of_filter_none hgl] at hw ⊢
      by_cases hs : s ∈ deps
      · simp [hs]
      · simp [hs] at hw
    · by_cases he : e = s
      · subst he
        rw [setDep_of_filter_last_self hgl]
      · rw [setDep_of_filter_last_ne hgl he] at hw ⊢
        by_cases hs : s ∈ deps.erase e
        · exfalso
          have hfil := filter_name_eq_singleton h hgl
          have hsdeps : s ∈ deps := (List.erase_sublist e deps).subset hs
          have : s ∈ deps.filter fun x => depName x == depName s :=
            List.mem_filter.mpr ⟨hsdeps, by simp⟩
          rw [hfil] at this
          have : s = e := by simpa using this
          exact he this.symm
        · simp [hs] at hw

/-- C8 witness: the three parts applied at concrete manifests: re-adding
"pkg^1.0.0" to ["pkg^1.0.0"] does not write; replacing it by "pkg^2.0.0"
writes and changes the list; and a no-write run on a duplicate-free manifest
leaves the list unchanged. -/
theorem C8_write_only_on_change_witness :
    (set_dependency_to_ato_yaml ["pkg^1.0.0"] "pkg^1.0.0").2 = false ∧
    (set_dependency_to_ato_yaml ["pkg^1.0.0"] "pkg^2.0.0").1 ≠ ["pkg^1.0.0"] ∧
    (set_dependency_to_ato_yaml ["pkg^1.0.0"] "pkg^1.0.0").1 = ["pkg^1.0.0"] :=
  ⟨C8_write_only_on_change.1 ["pkg^1.0.0"] "pkg^1.0.0" (by decide),
   C8_write_only_on_change.2.1 ["pkg^1.0.0"] "pkg^2.0.0" (by decide),
   C8_write_only_on_change.2.2 ["pkg^1.0.0"] "pkg^1.0.0"
     (List.pairwise_singleton _ _) (by decide)⟩

/-- C8 counterexample: on the manifest ["pkg^1.0.0", "pkg^2.0.0"], which
holds two entries for pkg, re-adding "pkg^1.0.0" removes the stale
"pkg^2.0.0" (the name index keeps the last entry) yet performs no write, so
the dependency list changes without the file being rewritten — refuting
"the file is rewritten exactly when the list changed" for every manifest. -/
theorem C8_write_only_on_change_counterexample :
    (set_dependency_to_ato_yaml ["pkg^1.0.0", "pkg^2.0.0"] "pkg^1.0.0").1 ≠
      ["pkg^1.0.0", "pkg^2.0.0"] ∧
    (set_dependency_to_ato_yaml ["pkg^1.0.0", "pkg^2.0.0"] "pkg^1.0.0").2 = false := by
  refine ⟨by decide, by decide⟩

/-! ## Lemmas about the repository resolver -/

theorem semverPairs_parse {tags : List Tag} {v : Version} {t : Tag}
    (h : (v, t) ∈ semverPairs tags) : parseVersion t.name = some v ∧ t ∈ tags := by
  obtain ⟨a, ha, hfa⟩ := List.mem_filterMap.mp h
  rcases hp : parseVersion a.name with _ | v'
  · rw [hp] at hfa; simp at hfa
  · rw [hp] at hfa
    simp only [Option.map_some', Option.some.injEq, Prod.mk.injEq] at hfa
    obtain ⟨hv, ht⟩ := hfa
    subst hv
    subst ht
    exact ⟨hp, ha⟩

theorem isEmpty_false_of_ne_nil {α : Type} {l : List α} (h : l ≠ []) :
    l.isEmpty = false := by
  cases l with
  | nil => exact absurd rfl h
  | cons a t => rfl

theorem selectBest_error_of_no_match {module_spec : String} {tags : List Tag}
    (hcon : pyContains "@" module_spec = false)
    (hne : semverPairs tags ≠ [])
    (hmatch : matchingVersions module_spec tags = []) :
    selectBest module_spec tags = .error .valueError := by
  simp only [selectBest, hcon, isEmpty_false_of_ne_nil hne, hmatch]
  rfl

/-- C1: with zero semver tags and no '@' in the constraint the code warns and
leaves `best_checkout` unassigned, so the later `repo.git.checkout` raises
UnboundLocalError instead of completing the default-branch fallback: on a
fresh clone of a tagless remote, install errors rather than returning no
version. -/
theorem C1_no_tags_unbound_local :
    install_dependency "mymod" false none ⟨[], [("main", 5)], 5⟩ =
      (⟨[], [("main", 5)], 5, false⟩, .error .unboundLocal) := by
  decide

/-- C2: in the semver path the code returns `best_checkout` (line 186), the
tag reference, not the selected Version: installing "mymod" against a remote
whose sole tag is 1.2.0 yields the tag object, which is not any
`PyVal.pyVersion`. -/
theorem C2_returns_tag_not_version :
    install_dependency "mymod" false none ⟨[⟨"1.2.0", 7⟩], [("main", 5)], 5⟩ =
      (⟨[⟨"1.2.0", 7⟩], [("main", 5)], 7, false⟩, .ok (.pyTag ⟨"1.2.0", 7⟩)) ∧
    ∀ v : Version, (PyVal.pyTag ⟨"1.2.0", 7⟩) ≠ PyVal.pyVersion v := by
  exact ⟨by decide, fun v h => nomatch h⟩

/-- C6: with `upgrade = false` and an existing valid repository at the target
directory, install returns None immediately and performs no mutation: the
working copy state is returned untouched (no fetch, no checkout). -/
theorem C6_existing_no_upgrade_noop :
    ∀ (module : String) (r : RepoState) (remote : RemoteState),
      install_dependency module false (some r) remote = (r, .ok .pyNone) := by
  intro module r remote
  rfl

/-- C5: when the working copy reaching the pre-checkout dirty check (which
sits after fetch and selection) has uncommitted changes, install raises the
AtoError abort and the working copy keeps its head commit and its dirty
worktree — no checkout happens; and a fresh clone is never dirty, so the
check can only fire on the upgrade path. -/
theorem C5_dirty_abort :
    (∀ (module : String) (r : RepoState) (remote : RemoteState)
        (p : Option Checkout × Option Version),
      r.dirty = true →
      selectBest (effectiveModuleSpec module) (fetchFrom r remote).tags = .ok p →
      install_dependency module true (some r) remote =
        (fetchFrom r remote, .error (.atoError
          ("Module " ++ (split_module_spec module).1 ++
            " has uncommitted changes. Aborting."))) ∧
      (fetchFrom r remote).head = r.head ∧ (fetchFrom r remote).dirty = r.dirty) ∧
    (∀ remote : RemoteState, (cloneFrom remote).dirty = false) := by
  constructor
  · intro module r remote p hd hsel
    obtain ⟨bc, iv⟩ := p
    refine ⟨?_, rfl, rfl⟩
    simp only [install_dependency, if_pos]
    simp only [resolveAndCheckout, hsel]
    have hdirty : (fetchFrom r remote).dirty = true := hd
    simp [hdirty]
  · intro remote
    rfl

/-- C5 witness: a dirty working copy with upgrade, against a remote with one
semver tag (so selection succeeds), aborts with the AtoError and keeps its
head and dirty state. -/
theorem C5_dirty_abort_witness :
    install_dependency "m" true (some ⟨[], [], 3, true⟩)
        ⟨[⟨"1.0.0", 1⟩], [("main", 5)], 5⟩ =
      (fetchFrom ⟨[], [], 3, true⟩ ⟨[⟨"1.0.0", 1⟩], [("main", 5)], 5⟩,
        .error (.atoError
          ("Module " ++ (split_module_spec "m").1 ++
            " has uncommitted changes. Aborting."))) ∧
    (fetchFrom ⟨[], [], 3, true⟩ ⟨[⟨"1.0.0", 1⟩], [("main", 5)], 5⟩).head = 3 ∧
    (fetchFrom ⟨[], [], 3, true⟩ ⟨[⟨"1.0.0", 1⟩], [("main", 5)], 5⟩).dirty = true :=
  C5_dirty_abort.1 "m" ⟨[], [], 3, true⟩ ⟨[⟨"1.0.0", 1⟩], [("main", 5)], 5⟩
    (some (.tag ⟨"1.0.0", 1⟩), some ⟨1, 0, 0⟩) rfl (by decide)

/-- C10: when the effective constraint has no '@', at least one tag parses as
a semver, and none of the parsed versions match, `max` over the empty
matching set raises an unhandled ValueError, on both paths that reach
selection (fresh clone, and existing repo with upgrade). -/
theorem C10_no_matching_version_value_error :
    (∀ (module : String) (remote : RemoteState),
      pyContains "@" (effectiveModuleSpec module) = false →
      semverPairs remote.tags ≠ [] →
      matchingVersions (effectiveModuleSpec module) remote.tags = [] →
      install_dependency module false none remote =
        (cloneFrom remote, .error .valueError)) ∧
    (∀ (module : String) (r : RepoState) (remote : RemoteState),
      pyContains "@" (effectiveModuleSpec module) = false →
      semverPairs remote.tags ≠ [] →
      matchingVersions (effectiveModuleSpec module) remote.tags = [] →
      install_dependency module true (some r) remote =
        (fetchFrom r remote, .error .valueError)) := by
  constructor
  · intro module remote hcon hne hmatch
    have hsel : selectBest (effectiveModuleSpec module) (cloneFrom remote).tags =
        .error .valueError :=
      selectBest_error_of_no_match hcon hne hmatch
    simp only [install_dependency]
    simp only [resolveAndCheckout, hsel]
  · intro module r remote hcon hne hmatch
    have hsel : selectBest (effectiveModuleSpec module) (fetchFrom r remote).tags =
        .error .valueError :=
      selectBest_error_of_no_match hcon hne hmatch
    simp only [install_dependency, if_pos]
    simp only [resolveAndCheckout, hsel]

/-- C10 witness: installing "m^2.0.0" against a remote whose only tag is
1.0.0 (parseable, not matching ^2.0.0) ends in the ValueError. -/
theorem C10_no_matching_version_value_error_witness :
    install_dependency "m^2.0.0" false none ⟨[⟨"1.0.0", 1⟩], [("main", 5)], 5⟩ =
      (cloneFrom ⟨[⟨"1.0.0", 1⟩], [("main", 5)], 5⟩, .error .valueError) :=
  C10_no_matching_version_value_error.1 "m^2.0.0" ⟨[⟨"1.0.0", 1⟩], [("main", 5)], 5⟩
    (by decide) (by decide) (by decide)

/-- C4: whenever the constraint has no '@' and some parsed tag matches it,
selection returns exactly the maximum matching version in the version order,
checking out the tag whose name parses to that version; in particular with
tags 1.0.0, 1.2.0, 2.0.0 and constraint ^1.0.0 it selects 1.2.0, never
2.0.0. -/
theorem C4_selects_max_matching :
    (∀ (spec : String) (tags : List Tag),
      pyContains "@" spec = false →
      matchingVersions spec tags ≠ [] →
      ∃ v t, selectBest spec tags = .ok (some (.tag t), some v) ∧
        v ∈ matchingVersions spec tags ∧
        (∀ u ∈ matchingVersions spec tags, vle u v = true) ∧
        parseVersion t.name = some v) ∧
    selectBest "^1.0.0" [⟨"1.0.0", 1⟩, ⟨"1.2.0", 2⟩, ⟨"2.0.0", 3⟩] =
      .ok (some (.tag ⟨"1.2.0", 2⟩), some ⟨1, 2, 0⟩) := by
  constructor
  · intro spec tags hcon hne
    have hpairs : semverPairs tags ≠ [] := by
      intro h0
      apply hne
      simp [matchingVersions, h0]
    obtain ⟨m, hmax⟩ := pyMax_isSome hne
    obtain ⟨hmem, hall⟩ := pyMax_spec hmax
    have hmfst : m ∈ (semverPairs tags).map Prod.fst :=
      (List.mem_filter.mp hmem).1
    obtain ⟨pq, hpq, hpq1⟩ := List.mem_map.mp hmfst
    have hfindsome : ((semverPairs tags).reverse.find? fun p => p.1 == m).isSome := by
      rw [List.find?_isSome]
      exact ⟨pq, List.mem_reverse.mpr hpq, by simp [hpq1]⟩
    rcases hf : (semverPairs tags).reverse.find? fun p => p.1 == m with _ | q
    · rw [hf] at hfindsome
      simp at hfindsome
    · have hq1 : q.1 = m := by simpa using List.find?_some hf
      have hqmem : q ∈ semverPairs tags :=
        List.mem_reverse.mp (List.mem_of_find?_eq_some hf)
      have hparse : parseVersion q.2.name = some q.1 ∧ q.2 ∈ tags := by
        have hq' : (q.1, q.2) ∈ semverPairs tags := by simpa using hqmem
        exact semverPairs_parse hq'
      refine ⟨m, q.2, ?_, hmem, hall, by rw [← hq1]; exact hparse.1⟩
      simp only [selectBest, hcon, isEmpty_false_of_ne_nil hpairs, hmax,
        dictGetLast, hf]
      rfl
  · decide

/-- C4 witness: the general selection theorem applied to the claim's example:
constraint ^1.0.0 over tags 1.0.0, 1.2.0, 2.0.0. -/
theorem C4_selects_max_matching_witness :
    ∃ v t, selectBest "^1.0.0" [⟨"1.0.0", 1⟩, ⟨"1.2.0", 2⟩, ⟨"2.0.0", 3⟩] =
        .ok (some (.tag t), some v) ∧
      v ∈ matchingVersions "^1.0.0" [⟨"1.0.0", 1⟩, ⟨"1.2.0", 2⟩, ⟨"2.0.0", 3⟩] ∧
      (∀ u ∈ matchingVersions "^1.0.0" [⟨"1.0.0", 1⟩, ⟨"1.2.0", 2⟩, ⟨"2.0.0", 3⟩],
        vle u v = true) ∧
      parseVersion t.name = some v :=
  C4_selects_max_matching.1 "^1.0.0" [⟨"1.0.0", 1⟩, ⟨"1.2.0", 2⟩, ⟨"2.0.0", 3⟩]
    (by decide) (by decide)

/-- A non-ASCII Unicode digit is never an ASCII character. -/
theorem pyCharIsUniDigit_ascii {c : Char} (h : c.toNat < 128) :
    pyCharIsUniDigit c = false := by
  refine bool_eq_false fun ht => ?_
  simp only [pyCharIsUniDigit, Bool.or_eq_true, Bool.and_eq_true, beq_iff_eq,
    decide_eq_true_eq] at ht
  omega

/-- On ASCII characters the Python digit test is the ASCII digit test. -/
theorem pyCharIsDigit_ascii {c : Char} (h : c.toNat < 128) :
    pyCharIsDigit c = c.isDigit := by
  simp [pyCharIsDigit, pyCharIsUniDigit_ascii h]

/-- On all-ASCII character runs the Python digit test agrees with the ASCII
one pointwise, hence on the whole run. -/
theorem all_pyCharIsDigit_ascii : ∀ l : List Char, (∀ c ∈ l, c.toNat < 128) →
    l.all pyCharIsDigit = l.all Char.isDigit := by
  intro l h
  induction l with
  | nil => rfl
  | cons c t ih =>
    simp only [List.all_cons]
    rw [pyCharIsDigit_ascii (h c (List.mem_cons_self c t)),
      ih fun x hx => h x (List.mem_cons_of_mem c hx)]

/-- On ASCII strings the code's validation test (starts with "C" and the rest
passes Python isdigit) coincides with the spec's pattern C followed by one or
more digits; on non-ASCII strings the two part ways. -/
theorem jlc_check_eq_pattern_ascii (s : String)
    (hascii : ∀ c ∈ s.data, c.toNat < 128) :
    (pyStartsWith "C" s && pyIsdigitStr (strDrop s 1)) = matchesComponentPattern s := by
  obtain ⟨l⟩ := s
  cases l with
  | nil => rfl
  | cons c rest =>
    have hall : rest.all pyCharIsDigit = rest.all Char.isDigit :=
      all_pyCharIsDigit_ascii rest fun x hx =>
        hascii x (List.mem_cons_of_mem c hx)
    show (List.isPrefixOf ['C'] (c :: rest) && pyIsdigitStr ⟨rest⟩) = _
    by_cases hc : c = 'C'
    · subst hc
      simp [List.isPrefixOf, pyIsdigitStr, matchesComponentPattern, hall]
    · have h1 : ('C' == c) = false := by
        simpa using fun h => hc h.symm
      have h2 : (c == 'C') = false := by simpa using hc
      simp [List.isPrefixOf, h1, matchesComponentPattern, h2]

/-- C9 (amended): `install_jlcpcb` uppercases the component id and validates
it with startswith("C") plus Python isdigit on the tail.  Whenever that check
fails, the AtoError is raised with no repository access and no subprocess run
(empty step list); on ASCII ids the check coincides with the pattern C
followed by digits, so "c123" normalizes to "C123" and passes while "X123"
and "C12A" fail before any action; but since Python isdigit also accepts
non-ASCII Unicode digits, an id like "C\u0663" (C followed by the
Arabic-Indic digit three) passes validation despite not matching the pattern
and proceeds to the repository probe and the subprocess. -/
theorem C9_component_id_validation :
    (∀ (id url : String) (rc : Nat),
      (pyStartsWith "C" (pyUpper id) && pyIsdigitStr (strDrop (pyUpper id) 1)) = false →
      install_jlcpcb id url rc =
        ([], .error (.atoError
          ("Component id " ++ pyUpper id ++ " is invalid. Aborting.")))) ∧
    (∀ s : String, (∀ c ∈ s.data, c.toNat < 128) →
      (pyStartsWith "C" s && pyIsdigitStr (strDrop s 1)) = matchesComponentPattern s) ∧
    pyUpper "c123" = "C123" ∧
    install_jlcpcb "c123" "remote" 0 =
      ([.repoProbe, .readRemote, .runConverter "C123" "elec/footprints/footprints"],
        .ok ()) ∧
    install_jlcpcb "X123" "remote" 0 =
      ([], .error (.atoError "Component id X123 is invalid. Aborting.")) ∧
    install_jlcpcb "C12A" "remote" 0 =
      ([], .error (.atoError "Component id C12A is invalid. Aborting.")) ∧
    (matchesComponentPattern (pyUpper "C\u0663") = false ∧
      install_jlcpcb "C\u0663" "remote" 0 =
        ([.repoProbe, .readRemote,
          .runConverter "C\u0663" "elec/footprints/footprints"], .ok ())) := by
  refine ⟨?_, jlc_check_eq_pattern_ascii, by decide, by decide, by decide,
    by decide, by decide, by decide⟩
  intro id url rc h
  rcases Bool.and_eq_false_iff.mp h with ha | hb
  · simp [install_jlcpcb, ha]
  · simp [install_jlcpcb, hb]

/-- C9 witness: the validation-failure part applied at the id "X123" (whose
uppercased form fails the check), and the ASCII coincidence at "X123". -/
theorem C9_component_id_validation_witness :
    install_jlcpcb "X123" "u" 3 =
      ([], .error (.atoError
        ("Component id " ++ pyUpper "X123" ++ " is invalid. Aborting."))) ∧
    (pyStartsWith "C" "X123" && pyIsdigitStr (strDrop "X123" 1)) =
      matchesComponentPattern "X123" :=
  ⟨C9_component_id_validation.1 "X123" "u" 3 (by decide),
   C9_component_id_validation.2.1 "X123" (by decide)⟩

/-- C9 counterexample: the id "C\u0663" (C followed by the Arabic-Indic digit
three, accepted by Python isdigit) does not match the pattern C-then-ASCII-
digits after uppercasing, yet install_jlcpcb raises no validation error and
performs the repository probe and the subprocess run — refuting "any id not
matching the pattern after uppercasing raises a validation error before any
filesystem or network action". -/
theorem C9_component_id_counterexample :
    matchesComponentPattern (pyUpper "C\u0663") = false ∧
    install_jlcpcb "C\u0663" "remote" 0 =
      ([.repoProbe, .readRemote,
        .runConverter "C\u0663" "elec/footprints/footprints"], .ok ()) := by
  refine ⟨by decide, by decide⟩
